import Mathlib

/-!
Shallow embedding of the loafwallet-core sources under verification:
  * src/crypto/BRCryptoFeeBasis.c — the multi-chain fee-basis abstraction,
  * src/BRChainParams.h — the test-net difficulty-verification predicate,
  * src/BRWallet.h — UTXO identity/hash helpers and the wallet ledger surface.

Modelling conventions:
  * C machine integers become Nat; a wrap is written explicitly as `% 2^w`
    exactly where the C width forces one.
  * C doubles become exact rationals (ℚ); the IEEE rounding of products that
    exceed 2^53 is not modelled.
  * A fatal `assert` becomes `Except.error ()`; a NULL-pointer result used as
    an "unavailable" sentinel becomes `Option.none`.
-/

namespace Loafwallet

instance instDecidableEqExcept {ε α : Type} [DecidableEq ε] [DecidableEq α] :
    DecidableEq (Except ε α) := fun x y =>
  match x, y with
  | .ok a, .ok b =>
      if h : a = b then .isTrue (by rw [h])
      else .isFalse (by intro hc; cases hc; exact h rfl)
  | .ok _, .error _ => .isFalse (by intro hc; cases hc)
  | .error _, .ok _ => .isFalse (by intro hc; cases hc)
  | .error e, .error f =>
      if h : e = f then .isTrue (by rw [h])
      else .isFalse (by intro hc; cases hc; exact h rfl)

/-! ## Fee basis abstraction — src/crypto/BRCryptoFeeBasis.c -/

/-- BREthereumGas (ethereum headers): `uint64_t amountOfGas`. -/
structure BREthereumGas where
  amountOfGas : Nat
deriving DecidableEq

/-- BREthereumGasPrice: an ether amount per gas, carried as the 256-bit
`valueInWEI`. -/
structure BREthereumGasPrice where
  valueInWEI : Nat
deriving DecidableEq

/-- BREthereumFeeBasis as stored by `cryptoFeeBasisCreateAsETH`: the tag is
always FEE_BASIS_GAS and the payload is the gas limit / gas price pair. -/
structure BREthereumFeeBasis where
  limit : BREthereumGas
  price : BREthereumGasPrice
deriving DecidableEq

inductive BRCryptoBlockChainType
  | BLOCK_CHAIN_TYPE_BTC
  | BLOCK_CHAIN_TYPE_ETH
  | BLOCK_CHAIN_TYPE_GEN
deriving DecidableEq

/-- The discriminated union `u` of `struct BRCryptoFeeBasisRecord`, fused with
the `type` tag (they are always consistent by construction). `btc` carries the
two `uint32_t` fields; `gen` carries the opaque wallet-manager and generic
fee-basis handles as abstract identifiers. -/
inductive BRCryptoFeeBasisValue
  | btc (feePerKB sizeInByte : Nat)
  | eth (ethFeeBasis : BREthereumFeeBasis)
  | gen (gwm bid : Nat)
deriving DecidableEq

/-- `struct BRCryptoFeeBasisRecord` (reference count dropped; the unit handle
kept as an abstract identifier). -/
structure BRCryptoFeeBasis where
  u : BRCryptoFeeBasisValue
  unit : Nat
deriving DecidableEq

def cryptoFeeBasisCreateAsBTC (unit feePerKB sizeInByte : Nat) : BRCryptoFeeBasis :=
  { u := .btc (feePerKB % 2^32) (sizeInByte % 2^32), unit := unit }

def cryptoFeeBasisCreateAsETH (unit : Nat) (gas : BREthereumGas)
    (gasPrice : BREthereumGasPrice) : BRCryptoFeeBasis :=
  { u := .eth { limit := gas, price := gasPrice }, unit := unit }

def cryptoFeeBasisCreateAsGEN (unit gwm bid : Nat) : BRCryptoFeeBasis :=
  { u := .gen gwm bid, unit := unit }

def cryptoFeeBasisGetType (feeBasis : BRCryptoFeeBasis) : BRCryptoBlockChainType :=
  match feeBasis.u with
  | .btc _ _ => .BLOCK_CHAIN_TYPE_BTC
  | .eth _ => .BLOCK_CHAIN_TYPE_ETH
  | .gen _ _ => .BLOCK_CHAIN_TYPE_GEN

/-- BRCryptoAmount as built by `cryptoAmountCreateInternal (unit, isNegative,
value, takeUnit)`: the unit handle, sign flag and 256-bit value. -/
structure BRCryptoAmount where
  unit : Nat
  isNegative : Bool
  value : Nat
deriving DecidableEq

def cryptoAmountCreateInternal (unit : Nat) (isNegative : Bool) (value : Nat) :
    BRCryptoAmount :=
  { unit := unit, isNegative := isNegative, value := value }

/-- `cryptoFeeBasisGetPricePerCostFactorAsUInt256`; the GEN arm is
`assert (0)`, i.e. a fatal assertion. -/
def cryptoFeeBasisGetPricePerCostFactorAsUInt256 (feeBasis : BRCryptoFeeBasis) :
    Except Unit Nat :=
  match feeBasis.u with
  | .btc feePerKB _ => .ok feePerKB
  | .eth e => .ok e.price.valueInWEI
  | .gen _ _ => .error ()

def cryptoFeeBasisGetPricePerCostFactor (feeBasis : BRCryptoFeeBasis) :
    Except Unit BRCryptoAmount :=
  (cryptoFeeBasisGetPricePerCostFactorAsUInt256 feeBasis).map
    (fun v => cryptoAmountCreateInternal feeBasis.unit false v)

/-- `cryptoFeeBasisGetCostFactor`; doubles are exact rationals, the GEN arm is
`assert (0)`. -/
def cryptoFeeBasisGetCostFactor (feeBasis : BRCryptoFeeBasis) : Except Unit ℚ :=
  match feeBasis.u with
  | .btc _ sizeInByte => .ok ((sizeInByte : ℚ) / 1000)
  | .eth e => .ok (e.limit.amountOfGas : ℚ)
  | .gen _ _ => .error ()

/-- C `round` applied to the nonnegative fee rationals of this file:
round-half-away-from-zero, which on nonnegative input is `⌊q + 1/2⌋`. -/
def cRound (q : ℚ) : Nat := (⌊q + 1/2⌋).toNat

/-- Modelled from the spec: `mulUInt256_Double` (support/BRUtilMath.c, not
under src/) is the "overflow-checked wide arithmetic" — it multiplies a
256-bit value by a double, flags overflow when the product does not fit in
256 bits and negativity when the double is negative, and yields the integer
part of the product. Result order: (value, overflow, negative). -/
def mulUInt256_Double (x : Nat) (d : ℚ) : Nat × Bool × Bool :=
  ((⌊(x : ℚ) * d⌋).toNat, decide ((2^256 : ℚ) ≤ (x : ℚ) * d), decide (d < 0))

/-- `cryptoFeeBasisGetFee`. The BTC arm computes
`round (feePerKB * sizeInByte / 1000.0)` and hands it to `createUInt256`,
whose parameter is `uint64_t` (hence the `% 2^64`); the ETH and GEN arms share
one switch case that multiplies price by cost factor with the overflow check,
returning NULL (`none`) on overflow. -/
def cryptoFeeBasisGetFee (feeBasis : BRCryptoFeeBasis) :
    Except Unit (Option BRCryptoAmount) :=
  match feeBasis.u with
  | .btc feePerKB sizeInByte =>
      let fee : ℚ := ((feePerKB : ℚ) * (sizeInByte : ℚ)) / 1000
      .ok (some (cryptoAmountCreateInternal feeBasis.unit false (cRound fee % 2^64)))
  | _ => do
      let pricePerCostFactor ← cryptoFeeBasisGetPricePerCostFactorAsUInt256 feeBasis
      let costFactor ← cryptoFeeBasisGetCostFactor feeBasis
      let r := mulUInt256_Double pricePerCostFactor costFactor
      .ok (if r.2.1 then none
           else some (cryptoAmountCreateInternal feeBasis.unit false r.1))

/-- `cryptoFeeBasisAsBTC`: asserts the BTC variant, then returns the
`feePerKB` payload (widened to `uint64_t`). The failed assertion on a wrong
variant is `none`. -/
def cryptoFeeBasisAsBTC (feeBasis : BRCryptoFeeBasis) : Option Nat :=
  match feeBasis.u with
  | .btc feePerKB _ => some feePerKB
  | _ => none

/-- `cryptoFeeBasisAsETH`: asserts the ETH variant, then returns `u.eth`. -/
def cryptoFeeBasisAsETH (feeBasis : BRCryptoFeeBasis) : Option BREthereumFeeBasis :=
  match feeBasis.u with
  | .eth e => some e
  | _ => none

/-- `cryptoFeeBasisAsGEN`: asserts the GEN variant, then returns `u.gen.bid`. -/
def cryptoFeeBasisAsGEN (feeBasis : BRCryptoFeeBasis) : Option Nat :=
  match feeBasis.u with
  | .gen _ bid => some bid
  | _ => none

/-- Bool test that an `Except` computation did not hit an assertion. -/
def exceptIsOk : Except Unit α → Bool
  | .ok _ => true
  | .error _ => false

/-! ## Chain parameters — src/BRChainParams.h -/

/-- `UInt256Eq` on 256-bit values modelled as Nat. -/
def UInt256Eq (a b : Nat) : Bool := decide (a = b)

/-- Modelled from the spec: `BLOCK_DIFFICULTY_INTERVAL` is defined in
BRMerkleBlock.h, which is not under src/; it is the number of blocks between
the "difficulty transition boundaries" at which the checkpoint table is
anchored (2016 for this chain).  The claims only use membership of a height
in the boundary set, i.e. divisibility by this constant. -/
def BLOCK_DIFFICULTY_INTERVAL : Nat := 2016

/-- The BRMerkleBlock fields read (or deliberately ignored) by
`BRTestNetVerifyDifficulty`: hashes are 256-bit values, the rest `uint32_t`.
`target` and `timestamp` are carried to record that the predicate never
inspects them. -/
structure BRMerkleBlock where
  blockHash : Nat
  prevBlock : Nat
  height : Nat
  target : Nat
  timestamp : Nat
deriving DecidableEq

/-- `BRTestNetVerifyDifficulty`.  The two `assert` statements make a NULL
`block` or `previous` a fatal assertion (`Except.error`); past them the
`! previous` disjunct of the first `if` is necessarily false.  `uint32_t`
height arithmetic wraps, hence the `% 2^32` on `previous->height + 1`. -/
def BRTestNetVerifyDifficulty (block previous : Option BRMerkleBlock)
    (transitionTime : Nat) : Except Unit Bool :=
  match block, previous with
  | some b, some p =>
      let r := !(!(UInt256Eq b.prevBlock p.blockHash)
                 || decide (b.height ≠ (p.height + 1) % 2^32))
      let r := if r && decide (b.height % BLOCK_DIFFICULTY_INTERVAL = 0)
                  && decide (transitionTime = 0) then false else r
      .ok r
  | _, _ => .error ()

/-! ## UTXO identity — src/BRWallet.h -/

/-- `BRUTXO`: a 256-bit transaction hash and a `uint32_t` output index. -/
structure BRUTXO where
  hash : Nat
  n : Nat
deriving DecidableEq

def BRUTXOEq (a b : BRUTXO) : Bool := UInt256Eq a.hash b.hash && decide (a.n = b.n)

/-- `BRUTXOHash`: `(hash.u32[0] ^ n)*0x01000193` — the low 32-bit word of the
hash xor'd with the index, times the FNV prime, in 32-bit unsigned
arithmetic, then widened to `size_t`. -/
def BRUTXOHash (utxo : BRUTXO) : Nat :=
  ((utxo.hash % 2^32) ^^^ (utxo.n % 2^32)) * 0x01000193 % 2^32

/-! ## Transactions and the wallet ledger — src/BRWallet.h

BRWallet.c is not under src/: only the interface and its documenting comments
are.  The ledger state and its operations below are therefore modelled from
the spec (sections 3, 4.1, 4.2, 4.4 and 8). -/

/-- Modelled from the spec: a transaction lock time is either height-based or
timestamp-based. -/
inductive BRLockTime
  | height (h : Nat)
  | timestamp (t : Nat)
deriving DecidableEq

/-- A transaction input: an Output Reference (producing transaction hash,
output index). -/
structure BRTxInput where
  prevHash : Nat
  prevIndex : Nat
deriving DecidableEq

/-- A transaction output: amount and paid address (addresses abstract). -/
structure BRTxOutput where
  amount : Nat
  address : Nat
deriving DecidableEq

/-- Modelled from the spec (section 3): hash identity, ordered inputs and
outputs, lock time, block height (0 = unconfirmed), timestamp. -/
structure BRTransaction where
  hash : Nat
  inputs : List BRTxInput
  outputs : List BRTxOutput
  lockTime : BRLockTime
  blockHeight : Nat
  timestamp : Nat
deriving DecidableEq

/-- Modelled from the spec: `BRWalletTransactionIsPostdated` (BRWallet.c, not
under src/) — "true if a height-based lock time exceeds blockHeight+1, or a
timestamp-based lock time exceeds now+600 seconds".  The current time is an
explicit `now` argument. -/
def BRWalletTransactionIsPostdated (now : Nat) (tx : BRTransaction)
    (blockHeight : Nat) : Bool :=
  match tx.lockTime with
  | .height h => decide (blockHeight + 1 < h)
  | .timestamp t => decide (now + 600 < t)

/-- The Output Reference consumed by an input. -/
def inputRef (i : BRTxInput) : BRUTXO := { hash := i.prevHash, n := i.prevIndex }

/-- An entry of the UTXO Index: an Output Reference plus its amount. -/
structure BRWalletUTXOEntry where
  ref : BRUTXO
  amount : Nat
deriving DecidableEq

/-- Modelled from the spec: the state accumulated while replaying the Ledger
from empty — the UTXO Index, the set of Output References consumed by valid
transactions, the hashes judged invalid, and the running balance maintained
incrementally (spec invariant 4 and section 8). -/
structure LedgerState where
  utxos : List BRWalletUTXOEntry
  spent : List BRUTXO
  invalid : List Nat
  balance : Int
deriving DecidableEq

def emptyLedgerState : LedgerState :=
  { utxos := [], spent := [], invalid := [], balance := 0 }

/-- Modelled from the spec (invariant 2): during an in-order replay a
transaction is invalid iff one of its inputs is already consumed by a
different valid wallet transaction, or one of its ancestors is itself
invalid. -/
def txStepInvalid (st : LedgerState) (tx : BRTransaction) : Bool :=
  tx.inputs.any (fun i =>
    st.spent.contains (inputRef i) || st.invalid.contains i.prevHash)

def sumAmounts (l : List BRWalletUTXOEntry) : Int :=
  (l.map (fun e => (e.amount : Int))).sum

/-- Whether transaction `tx` spends UTXO-Index entry `e`. -/
def txSpendsEntry (tx : BRTransaction) (e : BRWalletUTXOEntry) : Bool :=
  tx.inputs.any (fun i => decide (inputRef i = e.ref))

/-- The wallet-owned outputs of `tx`, as fresh UTXO-Index entries. -/
def txOwnedEntries (owned : List Nat) (tx : BRTransaction) : List BRWalletUTXOEntry :=
  (tx.outputs.enum.filter (fun p => owned.contains p.2.address)).map
    (fun p => { ref := { hash := tx.hash, n := p.1 }, amount := p.2.amount })

/-- Modelled from the spec (section 4.1): processing one registered
transaction.  An invalid transaction is recorded and changes neither the
Index nor the balance; a valid one consumes the wallet UTXOs its inputs
reference, adds its wallet-owned outputs, marks its inputs spent, and the
balance moves by the amounts removed and added. -/
def ledgerStep (owned : List Nat) (st : LedgerState) (tx : BRTransaction) :
    LedgerState :=
  if txStepInvalid st tx then { st with invalid := tx.hash :: st.invalid }
  else
    let consumed := st.utxos.filter (fun e => txSpendsEntry tx e)
    let remaining := st.utxos.filter (fun e => !(txSpendsEntry tx e))
    let added := txOwnedEntries owned tx
    { utxos := remaining ++ added
      spent := st.spent ++ tx.inputs.map inputRef
      invalid := st.invalid
      balance := st.balance - sumAmounts consumed + sumAmounts added }

/-- Modelled from the spec (section 8): replay the full Ledger from empty. -/
def replayLedger (owned : List Nat) (txs : List BRTransaction) : LedgerState :=
  txs.foldl (ledgerStep owned) emptyLedgerState

/-- Modelled from the spec: the wallet — its owned addresses, the Ledger in
registration order, and the replayed Index/validity/balance state. -/
structure BRWallet where
  owned : List Nat
  ledger : List BRTransaction
  utxos : List BRWalletUTXOEntry
  spent : List BRUTXO
  invalid : List Nat
  balance : Int
deriving DecidableEq

def walletFromLedger (owned : List Nat) (ledger : List BRTransaction) : BRWallet :=
  let st := replayLedger owned ledger
  { owned := owned, ledger := ledger, utxos := st.utxos, spent := st.spent,
    invalid := st.invalid, balance := st.balance }

/-- `BRWalletNew`: allocate and populate a wallet from the given transaction
history. -/
def BRWalletNew (owned : List Nat) (txs : List BRTransaction) : BRWallet :=
  walletFromLedger owned txs

/-- `BRWalletBalance`: the maintained balance field. -/
def BRWalletBalance (w : BRWallet) : Int := w.balance

/-- `BRWalletUTXOs`: the UTXO Index snapshot. -/
def BRWalletUTXOs (w : BRWallet) : List BRWalletUTXOEntry := w.utxos

def BRWalletContainsTxHash (w : BRWallet) (h : Nat) : Bool :=
  w.ledger.any (fun tx => decide (tx.hash = h))

/-- Modelled from the spec: a transaction touches the wallet when an output
pays a wallet address or an input consumes an output of a registered
transaction that pays a wallet address. -/
def walletTouches (w : BRWallet) (tx : BRTransaction) : Bool :=
  tx.outputs.any (fun o => w.owned.contains o.address) ||
  tx.inputs.any (fun i => w.ledger.any (fun t =>
    decide (t.hash = i.prevHash) &&
      (match t.outputs[i.prevIndex]? with
       | some o => w.owned.contains o.address
       | none => false)))

/-- Modelled from the spec (section 4.1): `Register(tx)` — no-op returning
false if tx touches no wallet address, idempotent if the hash is already
present, otherwise the transaction is appended to the Ledger and the
Index/balance state is that of the extended Ledger. -/
def BRWalletRegisterTransaction (w : BRWallet) (tx : BRTransaction) :
    BRWallet × Bool :=
  if !(walletTouches w tx) then (w, false)
  else if BRWalletContainsTxHash w tx.hash then (w, true)
  else (walletFromLedger w.owned (w.ledger ++ [tx]), true)

/-- One widening pass of the dependents closure: add the hashes of ledger
transactions consuming an output of an already-removed transaction. -/
def dependentsStep (removed : List Nat) (ledger : List BRTransaction) : List Nat :=
  removed ++ ((ledger.filter (fun tx =>
    !(removed.contains tx.hash) &&
      tx.inputs.any (fun i => removed.contains i.prevHash))).map (fun tx => tx.hash))

/-- Iterate `dependentsStep` to a fixpoint; the ledger length bounds the
number of productive passes. -/
def dependentsClosureAux : Nat → List Nat → List BRTransaction → List Nat
  | 0, removed, _ => removed
  | fuel + 1, removed, ledger =>
      let next := dependentsStep removed ledger
      if next.length = removed.length then removed
      else dependentsClosureAux fuel next ledger

/-- Modelled from the spec (sections 3 and 4.1): `Remove(hash)` removes the
transitive closure of transactions consuming an output of `hash`, then `hash`
itself, and the Index/balance state is that of the surviving Ledger. -/
def BRWalletRemoveTransaction (w : BRWallet) (h : Nat) : BRWallet :=
  let removed := dependentsClosureAux w.ledger.length [h] w.ledger
  walletFromLedger w.owned (w.ledger.filter (fun tx => !(removed.contains tx.hash)))

/-- Modelled from the spec (section 4.1): `Update(hash, height, timestamp)`
mutates the stored height/timestamp of the matching transaction, no-op if
absent. -/
def BRWalletUpdateTransaction (w : BRWallet) (h blockHeight timestamp : Nat) :
    BRWallet :=
  walletFromLedger w.owned (w.ledger.map (fun tx =>
    if tx.hash = h then { tx with blockHeight := blockHeight, timestamp := timestamp }
    else tx))

/-- The mutating operation surface of the ledger. -/
inductive WalletOp
  | register (tx : BRTransaction)
  | remove (h : Nat)
  | update (h blockHeight timestamp : Nat)

def applyOp (w : BRWallet) : WalletOp → BRWallet
  | .register tx => (BRWalletRegisterTransaction w tx).1
  | .remove h => BRWalletRemoveTransaction w h
  | .update h bh ts => BRWalletUpdateTransaction w h bh ts

def applyOps (w : BRWallet) (ops : List WalletOp) : BRWallet := ops.foldl applyOp w

/-- The ledger-state view of a wallet. -/
def walletLedgerState (w : BRWallet) : LedgerState :=
  { utxos := w.utxos, spent := w.spent, invalid := w.invalid, balance := w.balance }

/-- A wallet value that arose from replaying some ledger. -/
def WalletGood (w : BRWallet) : Prop :=
  ∃ o l, w = walletFromLedger o l

/-- Concrete transactions used to exercise the ledger: a coinbase-style
deposit of 100 to wallet address 1 ... -/
def demoTx1 : BRTransaction :=
  { hash := 1, inputs := [], outputs := [{ amount := 100, address := 1 }],
    lockTime := .height 0, blockHeight := 0, timestamp := 0 }

/-- ... a spend of deposit output (1, 0) returning 50 to the wallet ... -/
def demoTx2 : BRTransaction :=
  { hash := 2, inputs := [{ prevHash := 1, prevIndex := 0 }],
    outputs := [{ amount := 50, address := 1 }],
    lockTime := .height 0, blockHeight := 0, timestamp := 0 }

/-- ... and a conflicting double-spend of the same output (1, 0). -/
def demoTx3 : BRTransaction :=
  { hash := 3, inputs := [{ prevHash := 1, prevIndex := 0 }],
    outputs := [{ amount := 40, address := 1 }],
    lockTime := .height 0, blockHeight := 0, timestamp := 0 }

def demoOps : List WalletOp := [.register demoTx1, .register demoTx2]

/-- The value computed by `mulUInt256_Double` on a whole-number (Nat-valued)
double is the plain product, and the overflow flag is the 256-bit bound test. -/
theorem mulUInt256_Double_natCast (x n : Nat) :
    mulUInt256_Double x (n : ℚ) = (x * n, decide (2^256 ≤ x * n), false) := by
  unfold mulUInt256_Double
  refine Prod.ext ?_ (Prod.ext ?_ ?_)
  · show (⌊(x : ℚ) * (n : ℚ)⌋).toNat = x * n
    rw [show ((x : ℚ) * (n : ℚ)) = ((x * n : ℕ) : ℚ) by push_cast; ring,
      Int.floor_natCast, Int.toNat_natCast]
  · show decide ((2^256 : ℚ) ≤ (x : ℚ) * (n : ℚ)) = decide (2^256 ≤ x * n)
    rw [decide_eq_decide]
    rw [show ((x : ℚ) * (n : ℚ)) = ((x * n : ℕ) : ℚ) by push_cast; ring]
    exact_mod_cast Iff.rfl
  · show decide ((n : ℚ) < 0) = false
    simp [not_lt.mpr (by positivity : (0 : ℚ) ≤ (n : ℚ))]

/-- Closed form of `cryptoFeeBasisGetFee` on a Gas-based fee basis: the exact
product gas-price × gas-limit when it fits in 256 bits, NULL otherwise. -/
theorem cryptoFeeBasisGetFee_eth (u : Nat) (gas : BREthereumGas)
    (gp : BREthereumGasPrice) :
    cryptoFeeBasisGetFee (cryptoFeeBasisCreateAsETH u gas gp) =
      .ok (if 2^256 ≤ gp.valueInWEI * gas.amountOfGas then none
           else some (cryptoAmountCreateInternal u false
             (gp.valueInWEI * gas.amountOfGas))) := by
  show Except.ok _ = _
  simp only [mulUInt256_Double_natCast, cryptoFeeBasisCreateAsETH]
  by_cases h : 2^256 ≤ gp.valueInWEI * gas.amountOfGas <;> simp [h]

/-- `cRound` of a fee quotient n / 1000 is (2n + 1000) / 2000 in Nat
division. -/
theorem cRound_div_1000 (n : Nat) : cRound ((n : ℚ) / 1000) = (2 * n + 1000) / 2000 := by
  unfold cRound
  rw [show ((n : ℚ) / 1000 + 1/2) = (((2 * n + 1000 : ℕ) : ℚ) / ((2000 : ℕ) : ℚ)) by
        push_cast; ring,
    Rat.floor_natCast_div_natCast]
  rw [← Int.natCast_div, Int.toNat_natCast]

/-- Closed form of `cryptoFeeBasisGetFee` on a UTXO-rate fee basis. -/
theorem cryptoFeeBasisGetFee_btc (u f s : Nat) :
    cryptoFeeBasisGetFee (cryptoFeeBasisCreateAsBTC u f s) =
      .ok (some (cryptoAmountCreateInternal u false
        ((2 * ((f % 2^32) * (s % 2^32)) + 1000) / 2000 % 2^64))) := by
  show Except.ok _ = _
  rw [show (((f % 2^32 : ℕ) : ℚ) * ((s % 2^32 : ℕ) : ℚ)) =
        (((f % 2^32) * (s % 2^32) : ℕ) : ℚ) by push_cast; ring,
    cRound_div_1000]
  rfl

/-! ### Ledger replay support lemmas -/

theorem sum_filter_partition {α : Type} (p : α → Bool) (f : α → Int) (l : List α) :
    ((l.filter p).map f).sum + ((l.filter (fun a => !(p a))).map f).sum =
      (l.map f).sum := by
  induction l with
  | nil => simp
  | cons a t ih =>
    by_cases h : p a = true <;>
      simp only [List.filter_cons, h, Bool.not_true, Bool.not_false, if_true,
        if_false, List.map_cons, List.sum_cons, Bool.false_eq_true,
        Bool.true_eq_false, ite_true, ite_false] <;> omega

theorem sumAmounts_filter_partition (p : BRWalletUTXOEntry → Bool)
    (l : List BRWalletUTXOEntry) :
    sumAmounts (l.filter p) + sumAmounts (l.filter (fun e => !(p e))) =
      sumAmounts l := by
  simpa [sumAmounts] using sum_filter_partition p (fun e => (e.amount : Int)) l

theorem sumAmounts_append (a b : List BRWalletUTXOEntry) :
    sumAmounts (a ++ b) = sumAmounts a + sumAmounts b := by
  simp [sumAmounts]

theorem sumAmounts_nonneg (l : List BRWalletUTXOEntry) : 0 ≤ sumAmounts l := by
  induction l with
  | nil => simp [sumAmounts]
  | cons e t ih => simp only [sumAmounts, List.map_cons, List.sum_cons] at *; omega

theorem ledgerStep_balance (owned : List Nat) (st : LedgerState)
    (tx : BRTransaction) (h : st.balance = sumAmounts st.utxos) :
    (ledgerStep owned st tx).balance = sumAmounts (ledgerStep owned st tx).utxos := by
  unfold ledgerStep
  by_cases hv : txStepInvalid st tx = true
  · simp [hv, h]
  · simp only [hv, Bool.false_eq_true, if_false, ite_false]
    rw [sumAmounts_append]
    have hpart := sumAmounts_filter_partition (fun e => txSpendsEntry tx e) st.utxos
    omega

theorem foldl_ledgerStep_balance (owned : List Nat) (txs : List BRTransaction) :
    ∀ st : LedgerState, st.balance = sumAmounts st.utxos →
      (txs.foldl (ledgerStep owned) st).balance =
        sumAmounts ((txs.foldl (ledgerStep owned) st).utxos) := by
  induction txs with
  | nil => intro st h; simpa using h
  | cons tx t ih =>
    intro st h
    simp only [List.foldl_cons]
    exact ih _ (ledgerStep_balance owned st tx h)

theorem replayLedger_balance (owned : List Nat) (txs : List BRTransaction) :
    (replayLedger owned txs).balance = sumAmounts (replayLedger owned txs).utxos :=
  foldl_ledgerStep_balance owned txs emptyLedgerState (by simp [emptyLedgerState, sumAmounts])

theorem applyOp_good (w : BRWallet) (op : WalletOp) (h : WalletGood w) :
    WalletGood (applyOp w op) := by
  cases op with
  | register tx =>
    show WalletGood (BRWalletRegisterTransaction w tx).1
    unfold BRWalletRegisterTransaction
    split_ifs with h1 h2
    · exact h
    · exact h
    · exact ⟨w.owned, w.ledger ++ [tx], rfl⟩
  | remove hh => exact ⟨_, _, rfl⟩
  | update hh bh ts => exact ⟨_, _, rfl⟩

theorem applyOps_good (ops : List WalletOp) :
    ∀ w : BRWallet, WalletGood w → WalletGood (applyOps w ops) := by
  induction ops with
  | nil => intro w h; exact h
  | cons op t ih =>
    intro w h
    exact ih (applyOp w op) (applyOp_good w op h)

theorem walletFromLedger_balance (o : List Nat) (l : List BRTransaction) :
    (walletFromLedger o l).balance = sumAmounts ((walletFromLedger o l).utxos) :=
  replayLedger_balance o l

theorem register_invalid_balance (w : BRWallet) (tx : BRTransaction)
    (hg : WalletGood w)
    (hinv : txStepInvalid (walletLedgerState w) tx = true) :
    BRWalletBalance (BRWalletRegisterTransaction w tx).1 = BRWalletBalance w := by
  obtain ⟨o, l, rfl⟩ := hg
  unfold BRWalletRegisterTransaction
  split_ifs with h1 h2
  · rfl
  · rfl
  · show (walletFromLedger (walletFromLedger o l).owned
      ((walletFromLedger o l).ledger ++ [tx])).balance = _
    have hl : (walletFromLedger o l).ledger = l := rfl
    have ho : (walletFromLedger o l).owned = o := rfl
    rw [hl, ho]
    have hrep : replayLedger o (l ++ [tx]) =
        ledgerStep o (replayLedger o l) tx := by
      unfold replayLedger
      rw [List.foldl_append]
      rfl
    have hst : walletLedgerState (walletFromLedger o l) = replayLedger o l := rfl
    rw [hst] at hinv
    show (replayLedger o (l ++ [tx])).balance = (replayLedger o l).balance
    rw [hrep]
    unfold ledgerStep
    simp [hinv]

/-- Propositional characterization of the test-net difficulty predicate when
both blocks are present. -/
theorem BRTestNetVerifyDifficulty_some (b p : BRMerkleBlock) (t : Nat) :
    BRTestNetVerifyDifficulty (some b) (some p) t =
      .ok (decide (b.prevBlock = p.blockHash ∧ b.height = (p.height + 1) % 2^32 ∧
        ¬(b.height % BLOCK_DIFFICULTY_INTERVAL = 0 ∧ t = 0))) := by
  show Except.ok _ = _
  by_cases hA : b.prevBlock = p.blockHash <;>
    by_cases hB : b.height = (p.height + 1) % 2^32 <;>
      by_cases hC : b.height % BLOCK_DIFFICULTY_INTERVAL = 0 <;>
        by_cases hD : t = 0 <;>
          simp [UInt256Eq, hA, hB, hC, hD]

/-! ### Claim theorems -/

/-- Claim C1, counterexample: on a Generic fee basis all three dispatch
operations hit the fatal assertion instead of returning a result, so they are
not total on every variant. -/
theorem claimC1_counterexample :
    cryptoFeeBasisGetCostFactor (cryptoFeeBasisCreateAsGEN 0 0 0) = .error () ∧
    cryptoFeeBasisGetPricePerCostFactor (cryptoFeeBasisCreateAsGEN 0 0 0) = .error () ∧
    cryptoFeeBasisGetFee (cryptoFeeBasisCreateAsGEN 0 0 0) = .error () :=
  ⟨rfl, rfl, rfl⟩

/-- Claim C1, amended: GetCostFactor, GetPricePerCostFactor and GetFee
dispatch on the active variant and return a result on the UTXO-rate and
Gas-based variants; on the Generic variant they fail fast with a fatal
assertion. -/
theorem claimC1_dispatch_total (fb : BRCryptoFeeBasis)
    (h : cryptoFeeBasisGetType fb ≠ .BLOCK_CHAIN_TYPE_GEN) :
    exceptIsOk (cryptoFeeBasisGetCostFactor fb) = true ∧
    exceptIsOk (cryptoFeeBasisGetPricePerCostFactor fb) = true ∧
    exceptIsOk (cryptoFeeBasisGetFee fb) = true := by
  obtain ⟨fu, funit⟩ := fb
  cases fu with
  | btc f s => exact ⟨rfl, rfl, rfl⟩
  | eth e => exact ⟨rfl, rfl, rfl⟩
  | gen g b => exact absurd rfl h

/-- Witness for claimC1_dispatch_total at a concrete UTXO-rate basis. -/
theorem claimC1_dispatch_total_witness :
    cryptoFeeBasisGetType (cryptoFeeBasisCreateAsBTC 3 1000 225) ≠
        .BLOCK_CHAIN_TYPE_GEN ∧
      (exceptIsOk (cryptoFeeBasisGetCostFactor (cryptoFeeBasisCreateAsBTC 3 1000 225)) = true ∧
       exceptIsOk (cryptoFeeBasisGetPricePerCostFactor (cryptoFeeBasisCreateAsBTC 3 1000 225)) = true ∧
       exceptIsOk (cryptoFeeBasisGetFee (cryptoFeeBasisCreateAsBTC 3 1000 225)) = true) :=
  ⟨by decide, claimC1_dispatch_total (cryptoFeeBasisCreateAsBTC 3 1000 225) (by decide)⟩

/-- Claim C2, counterexample: on a Generic fee basis GetFee aborts through the
assertion in the price helper; it reaches neither the multiplication nor the
unavailable sentinel. -/
theorem claimC2_counterexample :
    cryptoFeeBasisGetFee (cryptoFeeBasisCreateAsGEN 1 2 3) = .error () := rfl

/-- Claim C2, amended: for every Gas-based fee basis GetFee multiplies
gas price by gas limit with the 256-bit overflow check — on overflow the fee
is the unavailable sentinel, otherwise the exact (never wrapped) product; for
a Generic fee basis GetFee fails fast with a fatal assertion before any
multiplication. -/
theorem claimC2_gas_fee_overflow_checked :
    (∀ (u : Nat) (gas : BREthereumGas) (gp : BREthereumGasPrice),
      cryptoFeeBasisGetFee (cryptoFeeBasisCreateAsETH u gas gp) =
        .ok (if 2^256 ≤ gp.valueInWEI * gas.amountOfGas then none
             else some (cryptoAmountCreateInternal u false
               (gp.valueInWEI * gas.amountOfGas)))) ∧
    (∀ u gwm bid : Nat,
      cryptoFeeBasisGetFee (cryptoFeeBasisCreateAsGEN u gwm bid) = .error ()) :=
  ⟨cryptoFeeBasisGetFee_eth, fun _ _ _ => rfl⟩

/-- Claim C3: a Gas-based fee basis with gas limit 21000 and gas price 20e9
has fee exactly 420000000000000. -/
theorem claimC3_eth_fee_21000_20e9 :
    cryptoFeeBasisGetFee (cryptoFeeBasisCreateAsETH 1 { amountOfGas := 21000 }
        { valueInWEI := 20000000000 }) =
      .ok (some (cryptoAmountCreateInternal 1 false 420000000000000)) := by
  rw [cryptoFeeBasisGetFee_eth]
  norm_num

/-- Claim C4, counterexample: with `previous` absent the predicate dies on
`assert(previous != NULL)` — it does not return false. -/
theorem claimC4_counterexample :
    BRTestNetVerifyDifficulty
        (some { blockHash := 0, prevBlock := 0, height := 1, target := 0, timestamp := 0 })
        none 7 ≠ .ok false := by
  decide

/-- Claim C4, amended: with both blocks present, VerifyDifficulty returns
false when the block does not chain onto previous (prev-hash mismatch or
height not previous height + 1 in uint32 arithmetic) and when the height lies
on a difficulty-transition boundary while transitionTime is 0; an absent
block or previous is a fatal assertion instead of a false return. -/
theorem claimC4_verifyDifficulty_rejects (b p : BRMerkleBlock) (t : Nat) :
    ((b.prevBlock ≠ p.blockHash ∨ b.height ≠ (p.height + 1) % 2^32) →
      BRTestNetVerifyDifficulty (some b) (some p) t = .ok false) ∧
    (b.height % BLOCK_DIFFICULTY_INTERVAL = 0 → t = 0 →
      BRTestNetVerifyDifficulty (some b) (some p) t = .ok false) ∧
    BRTestNetVerifyDifficulty (some b) none t = .error () ∧
    BRTestNetVerifyDifficulty none (some p) t = .error () := by
  refine ⟨?_, ?_, rfl, rfl⟩
  · intro hm
    rw [BRTestNetVerifyDifficulty_some]
    have hfalse : ¬(b.prevBlock = p.blockHash ∧ b.height = (p.height + 1) % 2^32 ∧
        ¬(b.height % BLOCK_DIFFICULTY_INTERVAL = 0 ∧ t = 0)) := by
      rcases hm with hm | hm
      · exact fun hc => hm hc.1
      · exact fun hc => hm hc.2.1
    rw [decide_eq_false hfalse]
  · intro hb ht
    rw [BRTestNetVerifyDifficulty_some]
    have hfalse : ¬(b.prevBlock = p.blockHash ∧ b.height = (p.height + 1) % 2^32 ∧
        ¬(b.height % BLOCK_DIFFICULTY_INTERVAL = 0 ∧ t = 0)) := by
      exact fun hc => hc.2.2 ⟨hb, ht⟩
    rw [decide_eq_false hfalse]

/-- Witness for claimC4_verifyDifficulty_rejects: a block whose height is not
previous height + 1 is rejected. -/
theorem claimC4_verifyDifficulty_rejects_witness :
    BRTestNetVerifyDifficulty
        (some { blockHash := 10, prevBlock := 11, height := 5, target := 0, timestamp := 0 })
        (some { blockHash := 12, prevBlock := 13, height := 9, target := 0, timestamp := 0 })
        3 = .ok false :=
  (claimC4_verifyDifficulty_rejects
      { blockHash := 10, prevBlock := 11, height := 5, target := 0, timestamp := 0 }
      { blockHash := 12, prevBlock := 13, height := 9, target := 0, timestamp := 0 }
      3).1 (Or.inl (by decide))

/-- Claim C5: IsPostdated is true exactly when a height-based lock time
exceeds blockHeight + 1 or a timestamp-based lock time exceeds now + 600
seconds; on or below each boundary it is false. -/
theorem claimC5_isPostdated_boundaries (now : Nat) (tx : BRTransaction)
    (blockHeight : Nat) :
    BRWalletTransactionIsPostdated now tx blockHeight = true ↔
      ((∃ h, tx.lockTime = .height h ∧ blockHeight + 1 < h) ∨
       (∃ t, tx.lockTime = .timestamp t ∧ now + 600 < t)) := by
  unfold BRWalletTransactionIsPostdated
  cases hl : tx.lockTime with
  | height h => simp [hl]
  | timestamp t => simp [hl]

/-- Claim C6: in every wallet state reachable from empty by Register, Remove
and Update operations, the balance equals the sum of the valid, unspent,
wallet-owned output amounts held in the UTXO Index, is never negative, and
registering a transaction that is invalid in that state leaves it
unchanged. -/
theorem claimC6_balance_invariant (owned : List Nat) (ops : List WalletOp) :
    (BRWalletBalance (applyOps (BRWalletNew owned []) ops) =
        sumAmounts (BRWalletUTXOs (applyOps (BRWalletNew owned []) ops)) ∧
      0 ≤ BRWalletBalance (applyOps (BRWalletNew owned []) ops)) ∧
    ∀ tx : BRTransaction,
      txStepInvalid (walletLedgerState (applyOps (BRWalletNew owned []) ops)) tx = true →
        BRWalletBalance (BRWalletRegisterTransaction
            (applyOps (BRWalletNew owned []) ops) tx).1 =
          BRWalletBalance (applyOps (BRWalletNew owned []) ops) := by
  have hg : WalletGood (applyOps (BRWalletNew owned []) ops) :=
    applyOps_good ops _ ⟨owned, [], rfl⟩
  obtain ⟨o, l, heq⟩ := hg
  refine ⟨⟨?_, ?_⟩, ?_⟩
  · rw [heq]
    exact walletFromLedger_balance o l
  · rw [heq]
    show 0 ≤ (walletFromLedger o l).balance
    rw [walletFromLedger_balance o l]
    exact sumAmounts_nonneg _
  · intro tx hinv
    exact register_invalid_balance _ tx ⟨o, l, heq⟩ hinv

/-- Witness for claimC6_balance_invariant: two registrations, then a
double-spend that is invalid and leaves the balance unchanged. -/
theorem claimC6_balance_invariant_witness :
    (BRWalletBalance (applyOps (BRWalletNew [1] []) demoOps) =
        sumAmounts (BRWalletUTXOs (applyOps (BRWalletNew [1] []) demoOps)) ∧
      0 ≤ BRWalletBalance (applyOps (BRWalletNew [1] []) demoOps)) ∧
    BRWalletBalance (BRWalletRegisterTransaction
        (applyOps (BRWalletNew [1] []) demoOps) demoTx3).1 =
      BRWalletBalance (applyOps (BRWalletNew [1] []) demoOps) :=
  ⟨(claimC6_balance_invariant [1] demoOps).1,
   (claimC6_balance_invariant [1] demoOps).2 demoTx3 (by decide)⟩

/-- Claim C7: each variant-specific accessor yields the payload fixed at
construction on the matching variant and fails the variant assertion on
either wrong variant. -/
theorem claimC7_accessor_contract (unit f s : Nat) (gas : BREthereumGas)
    (gp : BREthereumGasPrice) (gwm bid : Nat) :
    (cryptoFeeBasisAsBTC (cryptoFeeBasisCreateAsBTC unit f s) = some (f % 2^32) ∧
      cryptoFeeBasisAsETH (cryptoFeeBasisCreateAsBTC unit f s) = none ∧
      cryptoFeeBasisAsGEN (cryptoFeeBasisCreateAsBTC unit f s) = none) ∧
    (cryptoFeeBasisAsETH (cryptoFeeBasisCreateAsETH unit gas gp) =
        some { limit := gas, price := gp } ∧
      cryptoFeeBasisAsBTC (cryptoFeeBasisCreateAsETH unit gas gp) = none ∧
      cryptoFeeBasisAsGEN (cryptoFeeBasisCreateAsETH unit gas gp) = none) ∧
    (cryptoFeeBasisAsGEN (cryptoFeeBasisCreateAsGEN unit gwm bid) = some bid ∧
      cryptoFeeBasisAsBTC (cryptoFeeBasisCreateAsGEN unit gwm bid) = none ∧
      cryptoFeeBasisAsETH (cryptoFeeBasisCreateAsGEN unit gwm bid) = none) :=
  ⟨⟨rfl, rfl, rfl⟩, ⟨rfl, rfl, rfl⟩, ⟨rfl, rfl, rfl⟩⟩

/-- Claim C8: on a UTXO-rate fee basis GetFee always returns an amount (never
the unavailable sentinel), equal to round(feePerKB × sizeInByte / 1000) — in
closed Nat form (2·f·s + 1000) / 2000 — with no overflow check on the
product. -/
theorem claimC8_btc_fee (u f s : Nat) (hf : f < 2^32) (hs : s < 2^32) :
    cryptoFeeBasisGetFee (cryptoFeeBasisCreateAsBTC u f s) =
      .ok (some (cryptoAmountCreateInternal u false ((2 * (f * s) + 1000) / 2000))) := by
  rw [cryptoFeeBasisGetFee_btc, Nat.mod_eq_of_lt hf, Nat.mod_eq_of_lt hs]
  have hfs : f * s < 2^64 := by
    have h1 : f * s < 2^32 * 2^32 :=
      Nat.mul_lt_mul_of_lt_of_lt hf hs
    have h2 : (2:ℕ)^32 * 2^32 = 2^64 := by norm_num
    omega
  have hlt : (2 * (f * s) + 1000) / 2000 < 2^64 := by omega
  rw [Nat.mod_eq_of_lt hlt]

/-- Witness for claimC8_btc_fee: feePerKB 1000 over 225 bytes rounds to fee
225. -/
theorem claimC8_btc_fee_witness :
    (1000 : Nat) < 2^32 ∧ (225 : Nat) < 2^32 ∧
    cryptoFeeBasisGetFee (cryptoFeeBasisCreateAsBTC 7 1000 225) =
      .ok (some (cryptoAmountCreateInternal 7 false 225)) := by
  refine ⟨by norm_num, by norm_num, ?_⟩
  rw [claimC8_btc_fee 7 1000 225 (by norm_num) (by norm_num)]

/-- Claim C9: a block off the difficulty-transition boundary that chains onto
previous is accepted for every transitionTime and every target — the test-net
predicate never verifies the difficulty target itself. -/
theorem claimC9_no_target_verification (b p : BRMerkleBlock) (t : Nat)
    (hb : b.height < 2^32)
    (hhash : b.prevBlock = p.blockHash)
    (hheight : b.height = p.height + 1)
    (hnb : b.height % BLOCK_DIFFICULTY_INTERVAL ≠ 0) :
    BRTestNetVerifyDifficulty (some b) (some p) t = .ok true := by
  rw [BRTestNetVerifyDifficulty_some]
  have h2 : b.height = (p.height + 1) % 2^32 := by
    rw [← hheight]
    exact (Nat.mod_eq_of_lt hb).symm
  rw [decide_eq_true ⟨hhash, h2, fun hc => hnb hc.1⟩]

/-- Witness for claimC9_no_target_verification with a nonzero target and
transitionTime 0. -/
theorem claimC9_no_target_verification_witness :
    BRTestNetVerifyDifficulty
        (some { blockHash := 9, prevBlock := 5, height := 1, target := 123, timestamp := 0 })
        (some { blockHash := 5, prevBlock := 0, height := 0, target := 7, timestamp := 0 })
        0 = .ok true :=
  claimC9_no_target_verification
    { blockHash := 9, prevBlock := 5, height := 1, target := 123, timestamp := 0 }
    { blockHash := 5, prevBlock := 0, height := 0, target := 7, timestamp := 0 }
    0 (by decide) (by decide) (by decide) (by decide)

/-- Claim C10: BRUTXOEq is reflexive, symmetric and transitive, and
BRUTXOHash is consistent with it. -/
theorem claimC10_utxoEq_equivalence :
    (∀ a : BRUTXO, BRUTXOEq a a = true) ∧
    (∀ a b : BRUTXO, BRUTXOEq a b = true → BRUTXOEq b a = true) ∧
    (∀ a b c : BRUTXO, BRUTXOEq a b = true → BRUTXOEq b c = true →
      BRUTXOEq a c = true) ∧
    (∀ a b : BRUTXO, BRUTXOEq a b = true → BRUTXOHash a = BRUTXOHash b) := by
  refine ⟨?_, ?_, ?_, ?_⟩ <;> intros <;>
    simp_all [BRUTXOEq, UInt256Eq, BRUTXOHash]

/-- Witness for claimC10_utxoEq_equivalence: hash consistency applied at a
concrete pair. -/
theorem claimC10_utxoEq_equivalence_witness :
    BRUTXOEq { hash := 5, n := 7 } { hash := 5, n := 7 } = true ∧
    BRUTXOHash { hash := 5, n := 7 } = BRUTXOHash { hash := 5, n := 7 } :=
  ⟨by decide,
   claimC10_utxoEq_equivalence.2.2.2 { hash := 5, n := 7 } { hash := 5, n := 7 } (by decide)⟩

end Loafwallet
